import Mathlib

/-!
Verification of the federation credential vault of the `beads` issue tracker
(package `internal/storage/dolt`, federation credential file).

Go byte slices (`[]byte`) are embedded as `List Nat`; Go strings used as raw
byte payloads (plaintext passwords) are likewise `List Nat`, since Go freely
converts between `string` and `[]byte` with identity on the bytes.  Peer names
keep Lean `String`, matching the rune-level behaviour of the Go regexp used to
validate them.  Fallible Go functions returning `(T, error)` become
`Except E T`.
-/

set_option maxRecDepth 4000

namespace Beads

/-- Errors surfaced by the cipher layer (`aes.NewCipher`, `gcm.Open`,
`decryptWithKey`'s explicit length check, and the nil-key guards of
`encryptPassword`/`decryptPassword`). -/
inductive CryptoError where
  | invalidKeySize (n : Nat)
  | ciphertextTooShort
  | authenticationFailed
  | keyNotInitialized
  deriving Repr, DecidableEq

/-- Go `aes.NewCipher` accepts exactly 16-, 24- or 32-byte keys and fails with
`KeySizeError` otherwise. -/
def aesKeySizeOk (key : List Nat) : Bool :=
  key.length == 16 || key.length == 24 || key.length == 32

/-- Go `cipher.NewGCM(aesBlock).NonceSize()` — the standard GCM nonce size. -/
def gcmNonceSize : Nat := 12

/-- Modelled from the spec: the AES-256-GCM AEAD seal operation comes from
Go's crypto library, which is not part of this repository's sources.  The
spec's contract (§4.1, glossary): sealing binds plaintext, key and nonce and
appends an authentication tag; opening succeeds only with the same key and
nonce and returns the exact plaintext.  We model the sealed output
(ciphertext ‖ tag) as the plaintext followed by a tag binding the nonce and
key, which realises the roundtrip and authentication contract. -/
def gcmSealBody (key nonce plaintext : List Nat) : List Nat :=
  plaintext ++ (nonce ++ key)

/-- Modelled from the spec: the AEAD open operation (see `gcmSealBody`).
Checks the trailing authentication tag against the supplied key and nonce;
returns the plaintext only on an exact match, and `none` otherwise. -/
def gcmOpen (key nonce c : List Nat) : Option (List Nat) :=
  let tag := nonce ++ key
  if tag.length ≤ c.length ∧ c.drop (c.length - tag.length) = tag then
    some (c.take (c.length - tag.length))
  else
    none

/-- The full blob produced by `gcm.Seal(nonce, nonce, plaintext, nil)`:
the nonce followed by the sealed body. -/
def sealBlob (plaintext key nonce : List Nat) : List Nat :=
  nonce ++ gcmSealBody key nonce plaintext

/-- Function `encryptWithKey` encrypts plaintext using AES-GCM with the given key.
The fresh random nonce drawn from `rand.Reader` is passed explicitly as
`nonce` (the Go code always draws exactly `gcm.NonceSize()` bytes). -/
def encryptWithKey (plaintext key nonce : List Nat) : Except CryptoError (List Nat) :=
  if aesKeySizeOk key then
    .ok (sealBlob plaintext key nonce)
  else
    .error (.invalidKeySize key.length)

/-- Function `decryptWithKey` decrypts ciphertext using AES-GCM with the given key:
it builds the cipher, rejects inputs shorter than one nonce, splits the
nonce prefix and opens the AEAD. -/
def decryptWithKey (encrypted key : List Nat) : Except CryptoError (List Nat) :=
  if aesKeySizeOk key then
    if encrypted.length < gcmNonceSize then
      .error .ciphertextTooShort
    else
      match gcmOpen key (encrypted.take gcmNonceSize) (encrypted.drop gcmNonceSize) with
      | some plaintext => .ok plaintext
      | none => .error .authenticationFailed
  else
    .error (.invalidKeySize key.length)

/-! ### Peer-name validation -/
/-- Errors returned by `validatePeerName`, one per message in the source. -/
inductive NameError where
  | emptyName
  | tooLong
  | badPattern
  deriving Repr, DecidableEq

/-- A character matched by the regexp class `[a-zA-Z]`. -/
def isAsciiLetter (c : Char) : Bool :=
  (97 ≤ c.toNat && c.toNat ≤ 122) || (65 ≤ c.toNat && c.toNat ≤ 90)

/-- A character matched by the regexp class `[a-zA-Z0-9_-]`. -/
def isPeerNameChar (c : Char) : Bool :=
  isAsciiLetter c || (48 ≤ c.toNat && c.toNat ≤ 57) || c == '_' || c == '-'

/-- Predicate for `validPeerNameRegex.MatchString name` with the anchored regexp
`^[a-zA-Z][a-zA-Z0-9_-]*$` (RE2 anchors the whole text). -/
def peerNameMatches (name : String) : Bool :=
  match name.data with
  | [] => false
  | c :: rest => isAsciiLetter c && rest.all isPeerNameChar

/-- The number of UTF-8 bytes a character occupies, mirroring Go's `len`
on the UTF-8 encoded string. -/
def charUtf8Bytes (c : Char) : Nat :=
  if c.toNat < 0x80 then 1
  else if c.toNat < 0x800 then 2
  else if c.toNat < 0x10000 then 3
  else 4

/-- Go's `len(name)`: byte length of the UTF-8 encoding. -/
def goStrLen (name : String) : Nat :=
  (name.data.map charUtf8Bytes).sum

/-- Function `validatePeerName` checks that a peer name is safe for use as a Dolt
remote name: non-empty, at most 64 bytes, and matching the anchored regexp. -/
def validatePeerName (name : String) : Except NameError Unit :=
  if name = "" then .error .emptyName
  else if goStrLen name > 64 then .error .tooLong
  else if ¬ peerNameMatches name then .error .badPattern
  else .ok ()

/-! ### Credentials and environment delivery -/
/-- Struct `remoteCredentials` holds authentication credentials for a Dolt remote.
The Go value is a nilable pointer; `Option` models nil. -/
structure RemoteCredentials where
  username : String
  password : String
  deriving Repr, DecidableEq

/-- Method `(c *remoteCredentials).empty()`: true for a nil pointer or when both
fields are empty strings. -/
def credsEmpty (c : Option RemoteCredentials) : Bool :=
  match c with
  | none => true
  | some c => c.username == "" && c.password == ""

/-- Go `strings.HasPrefix` on the underlying character lists. -/
def strStartsWith (s pre : String) : Bool :=
  go s.data pre.data
where
  go : List Char → List Char → Bool
  | _, [] => true
  | [], _ :: _ => false
  | a :: as, b :: bs => a == b && go as bs

/-- The process environment as `os.Environ()` presents it: a list of
`"KEY=value"` entries. -/
abbrev ProcEnv := List String

/-- An entry for one of the two credential environment variables. -/
def isCredEntry (e : String) : Bool :=
  strStartsWith e "DOLT_REMOTE_USER=" || strStartsWith e "DOLT_REMOTE_PASSWORD="

/-- Go `os.Setenv k v`: overwrite the variable if an entry exists, else append. -/
def setEnvVar (env : ProcEnv) (k v : String) : ProcEnv :=
  if env.any (fun e => strStartsWith e (k ++ "=")) then
    env.map (fun e => if strStartsWith e (k ++ "=") then k ++ "=" ++ v else e)
  else
    env ++ [k ++ "=" ++ v]

/-- Go `os.Unsetenv k`: drop every entry for the variable. -/
def unsetEnvVar (env : ProcEnv) (k : String) : ProcEnv :=
  env.filter (fun e => !(strStartsWith e (k ++ "=")))

/-- The Go `exec.Cmd`, restricted to the one field this code touches:
`Env` (nil means "inherit the parent environment"). -/
structure ExecCmd where
  env : Option ProcEnv
  deriving Repr, DecidableEq

/-- Method `(c *remoteCredentials).applyToCmd(cmd)`: build a fresh environment for
the subprocess from the ambient `os.Environ()` snapshot, dropping any
pre-existing credential entries and appending the non-empty credentials.
A nil/empty receiver leaves the command untouched. -/
def applyToCmd (c : Option RemoteCredentials) (ambient : ProcEnv) (cmd : ExecCmd) : ExecCmd :=
  if credsEmpty c then cmd
  else
    match c with
    | none => cmd
    | some creds =>
      let env := ambient.filter (fun e =>
        !(strStartsWith e "DOLT_REMOTE_USER=") && !(strStartsWith e "DOLT_REMOTE_PASSWORD="))
      let env := if creds.username ≠ "" then env ++ ["DOLT_REMOTE_USER=" ++ creds.username] else env
      let env := if creds.password ≠ "" then env ++ ["DOLT_REMOTE_PASSWORD=" ++ creds.password] else env
      { cmd with env := some env }

/-- Function `setFederationCredentials(username, password)`: set each credential
variable whose value is non-empty on the process environment.  (The cleanup
closure it returns is `federationCredentialsCleanup` below.) -/
def setFederationCredentials (username password : String) (env : ProcEnv) : ProcEnv :=
  let env := if username ≠ "" then setEnvVar env "DOLT_REMOTE_USER" username else env
  if password ≠ "" then setEnvVar env "DOLT_REMOTE_PASSWORD" password else env

/-- The cleanup closure returned by `setFederationCredentials`: unset both
credential variables unconditionally. -/
def federationCredentialsCleanup (env : ProcEnv) : ProcEnv :=
  unsetEnvVar (unsetEnvVar env "DOLT_REMOTE_USER") "DOLT_REMOTE_PASSWORD"

/-- Function `withEnvCredentials(creds, fn)` runs `fn` with the credentials injected
into the process environment, restoring it afterwards.  The wrapped
operation `fn` is modelled as a function from the environment it observes to
its `error` result plus the environment it leaves behind; the sequencing of
`federationEnvMutex.Lock`, `setFederationCredentials`, `fn`, deferred
cleanup and deferred `Unlock` is straight-line in the source, and the two
`defer`s run on every return path of the Go function. -/
def withEnvCredentials (creds : Option RemoteCredentials)
    (fn : ProcEnv → Except String Unit × ProcEnv) (env : ProcEnv) :
    Except String Unit × ProcEnv :=
  if credsEmpty creds then fn env
  else
    match creds with
    | none => fn env
    | some c =>
      let envIn := setFederationCredentials c.username c.password env
      let r := fn envIn
      (r.1, federationCredentialsCleanup r.2)

/-! ### The store -/
/-- One row of the `federation_peers` table, restricted to the columns the
credential code reads and writes (`name` is the primary key; the
server-assigned timestamp columns are never consulted by any property under
study and are omitted).  An empty `passwordEncrypted` models a NULL/empty
blob. -/
structure PeerRow where
  name : String
  remoteURL : String
  username : String
  passwordEncrypted : List Nat
  sovereignty : String
  deriving Repr, DecidableEq

/-- Record `storage.FederationPeer` as consumed/produced by the store API
(timestamps omitted as for `PeerRow`). -/
structure FederationPeer where
  name : String
  remoteURL : String
  username : String
  password : List Nat
  sovereignty : String
  deriving Repr, DecidableEq

/-- Errors surfaced by the store layer, one constructor per distinct
failure path of the Go code. -/
inductive StoreError where
  | invalidPeerName (e : NameError)
  | encryptFailed (e : CryptoError)
  | decryptFailed (e : CryptoError)
  | notFound (name : String)
  | storeFailed
  deriving Repr, DecidableEq

/-- The `DoltStore` fields touched by the credential code.  `dbConn` models
`s.db != nil`; `federationPeers = none` models a database in which the
`federation_peers` table does not exist (so any query against it fails). -/
structure DoltStore where
  dbPath : String
  credentialKey : Option (List Nat)
  dbConn : Bool
  federationPeers : Option (List PeerRow)
  remotes : List (String × String)
  deriving Repr, DecidableEq

/-- Modelled from the spec: SHA-256 comes from Go's crypto library, which is
not part of this repository's sources.  The spec (§4.2) uses it only as a
deterministic key-derivation hash producing a 256-bit (32-byte) key; only
that output length, determinism, and being some fixed function of the input
matter to the claims, so any fixed 32-byte-valued function is a faithful
stand-in. -/
def sha256Model (msg : List Nat) : List Nat :=
  (List.range 32).map (fun i => msg.foldl (fun a c => (a * 131 + c + 1) % 256) i)

/-- The bytes of a Go string literal (all names in play are ASCII, where
code points and UTF-8 bytes coincide). -/
def strBytes (s : String) : List Nat :=
  s.data.map Char.toNat

/-- Method `legacyEncryptionKey` derives the old predictable key from `dbPath`:
`sha256(dbPath + "beads-federation-key-v1")`. -/
def DoltStore.legacyEncryptionKey (s : DoltStore) : List Nat :=
  sha256Model (strBytes (s.dbPath ++ "beads-federation-key-v1"))

/-- Method `encryptPassword`: empty passwords produce no blob; a missing key is a
`CryptoError`; otherwise delegate to `encryptWithKey`. -/
def DoltStore.encryptPassword (s : DoltStore) (password nonce : List Nat) :
    Except CryptoError (List Nat) :=
  if password = [] then .ok []
  else
    match s.credentialKey with
    | none => .error .keyNotInitialized
    | some key => encryptWithKey password key nonce

/-- Method `decryptPassword`: an absent/empty blob short-circuits to the empty
password before the key is consulted; a missing key is a `CryptoError`;
otherwise delegate to `decryptWithKey`. -/
def DoltStore.decryptPassword (s : DoltStore) (encrypted : List Nat) :
    Except CryptoError (List Nat) :=
  if encrypted = [] then .ok []
  else
    match s.credentialKey with
    | none => .error .keyNotInitialized
    | some key => decryptWithKey encrypted key

/-! ### Key migration -/
/-- The row-scan step of `migrateCredentialKeys`: a row enters the migration
list when its stored blob is non-empty (the SQL `WHERE` clause) and decrypts
under the legacy key; rows that fail to decrypt are skipped. -/
def rowEntry (oldKey : List Nat) (r : PeerRow) : Option (String × List Nat) :=
  if r.passwordEncrypted = [] then none
  else
    match decryptWithKey r.passwordEncrypted oldKey with
    | .ok plaintext => some (r.name, plaintext)
    | .error _ => none

/-- The `toMigrate` list accumulated by the scan loop. -/
def migrationEntries (oldKey : List Nat) (rows : List PeerRow) : List (String × List Nat) :=
  rows.filterMap (rowEntry oldKey)

/-- The SQL statement `UPDATE federation_peers SET password_encrypted = ? WHERE name = ?`. -/
def updatePassword (rows : List PeerRow) (nm : String) (blob : List Nat) : List PeerRow :=
  rows.map (fun r => if r.name = nm then { r with passwordEncrypted := blob } else r)

/-- The re-encryption loop of `migrateCredentialKeys`: each entry is
re-encrypted with the new key (consuming the `i`-th fresh nonce) and written
back; an encryption error aborts the whole migration. -/
def applyMigration (newKey : List Nat) (nonces : Nat → List Nat) :
    List PeerRow → List (String × List Nat) → Nat → Except CryptoError (List PeerRow)
  | rows, [], _ => .ok rows
  | rows, (nm, pt) :: rest, i =>
    match encryptWithKey pt newKey (nonces i) with
    | .error e => .error e
    | .ok blob => applyMigration newKey nonces (updatePassword rows nm blob) rest (i + 1)

/-- Method `migrateCredentialKeys` re-encrypts all stored federation passwords from
the old dbPath-derived key to `newKey`.  No database connection, or a failed
query (missing `federation_peers` table), is "nothing to migrate", not an
error. -/
def DoltStore.migrateCredentialKeys (s : DoltStore) (newKey : List Nat)
    (nonces : Nat → List Nat) : Except StoreError DoltStore :=
  if s.dbConn then
    match s.federationPeers with
    | none => .ok s
    | some rows =>
      match applyMigration newKey nonces rows (migrationEntries s.legacyEncryptionKey rows) 0 with
      | .error e => .error (.encryptFailed e)
      | .ok rows2 => .ok { s with federationPeers := some rows2 }
  else .ok s

/-- Method `initCredentialKey` loads or generates the credential encryption key.
`keyFileContents` is what `os.ReadFile` returns for the key file (`none` on
read error); `randKey` is the fresh 32-byte key drawn from `rand.Reader`.
With no filesystem path, credential encryption is unavailable and the call
succeeds without touching the store. -/
def DoltStore.initCredentialKey (s : DoltStore) (keyFileContents : Option (List Nat))
    (randKey : List Nat) (nonces : Nat → List Nat) : Except StoreError DoltStore :=
  if s.dbPath = "" then .ok s
  else
    match keyFileContents with
    | some k =>
      if k.length = 32 then .ok { s with credentialKey := some k }
      else
        (s.migrateCredentialKeys randKey nonces).map
          (fun s2 => { s2 with credentialKey := some randKey })
    | none =>
      (s.migrateCredentialKeys randKey nonces).map
        (fun s2 => { s2 with credentialKey := some randKey })

/-! ### Store CRUD -/
/-- The `INSERT ... ON DUPLICATE KEY UPDATE` upsert over the peer rows:
replace the mutable columns of any row with the same name, or append a new
row. -/
def upsertPeer (rows : List PeerRow) (r : PeerRow) : List PeerRow :=
  if rows.any (fun x => x.name = r.name) then
    rows.map (fun x => if x.name = r.name then r else x)
  else
    rows ++ [r]

/-- Method `AddRemote` (external remote-management collaborator): register the
endpoint, failing with an "already exists" error when the name is taken —
an error class `AddFederationPeer` swallows, so the net effect modelled here
is add-if-absent. -/
def addRemote (remotes : List (String × String)) (name url : String) :
    List (String × String) :=
  if remotes.any (fun p => p.1 = name) then remotes else remotes ++ [(name, url)]

/-- Method `AddFederationPeer` adds or updates a federation peer: validate the
name, encrypt a non-empty password (consuming one fresh `nonce`), upsert the
row, then register the Dolt remote (swallowing "already exists"). -/
def DoltStore.AddFederationPeer (s : DoltStore) (peer : FederationPeer)
    (nonce : List Nat) : Except StoreError DoltStore :=
  match validatePeerName peer.name with
  | .error e => .error (.invalidPeerName e)
  | .ok () =>
    let encryptedPwd : Except CryptoError (List Nat) :=
      if peer.password ≠ [] then s.encryptPassword peer.password nonce else .ok []
    match encryptedPwd with
    | .error e => .error (.encryptFailed e)
    | .ok blob =>
      match s.federationPeers with
      | none => .error .storeFailed
      | some rows =>
        let row : PeerRow :=
          { name := peer.name, remoteURL := peer.remoteURL, username := peer.username,
            passwordEncrypted := blob, sovereignty := peer.sovereignty }
        .ok { s with
              federationPeers := some (upsertPeer rows row),
              remotes := addRemote s.remotes peer.name peer.remoteURL }

/-- Method `GetFederationPeer` retrieves a federation peer by name, decrypting a
non-empty stored password blob; an absent row is `ErrNotFound`. -/
def DoltStore.GetFederationPeer (s : DoltStore) (name : String) :
    Except StoreError FederationPeer :=
  match s.federationPeers with
  | none => .error .storeFailed
  | some rows =>
    match rows.find? (fun r => r.name = name) with
    | none => .error (.notFound name)
    | some r =>
      if r.passwordEncrypted ≠ [] then
        match s.decryptPassword r.passwordEncrypted with
        | .error e => .error (.decryptFailed e)
        | .ok pwd =>
          .ok { name := r.name, remoteURL := r.remoteURL, username := r.username,
                password := pwd, sovereignty := r.sovereignty }
      else
        .ok { name := r.name, remoteURL := r.remoteURL, username := r.username,
              password := [], sovereignty := r.sovereignty }

/-- The row-scan loop of `ListFederationPeers`: decrypt each row in order,
aborting on the first decryption failure. -/
def decryptPeerRows (s : DoltStore) : List PeerRow → Except StoreError (List FederationPeer)
  | [] => .ok []
  | r :: rest =>
    if r.passwordEncrypted ≠ [] then
      match s.decryptPassword r.passwordEncrypted with
      | .error e => .error (.decryptFailed e)
      | .ok pwd =>
        (decryptPeerRows s rest).map
          (fun peers => { name := r.name, remoteURL := r.remoteURL, username := r.username,
                          password := pwd, sovereignty := r.sovereignty } :: peers)
    else
      (decryptPeerRows s rest).map
        (fun peers => { name := r.name, remoteURL := r.remoteURL, username := r.username,
                        password := [], sovereignty := r.sovereignty } :: peers)

/-- Method `ListFederationPeers`: all rows ordered by name (`ORDER BY name`), each
decrypted exactly as in `GetFederationPeer`. -/
def DoltStore.ListFederationPeers (s : DoltStore) :
    Except StoreError (List FederationPeer) :=
  match s.federationPeers with
  | none => .error .storeFailed
  | some rows => decryptPeerRows s (rows.mergeSort (fun a b => a.name ≤ b.name))

/-- Decidable equality of `Except` results, so concrete runs of the embedded
functions can be checked by `decide`. -/
instance {ε α : Type} [DecidableEq ε] [DecidableEq α] : DecidableEq (Except ε α) := fun a b =>
  match a, b with
  | .ok x, .ok y =>
    if h : x = y then .isTrue (by rw [h]) else .isFalse (by intro hc; cases hc; exact h rfl)
  | .error x, .error y =>
    if h : x = y then .isTrue (by rw [h]) else .isFalse (by intro hc; cases hc; exact h rfl)
  | .ok _, .error _ => .isFalse (by intro hc; cases hc)
  | .error _, .ok _ => .isFalse (by intro hc; cases hc)

/-! ## Claim C6 — peer-name validation -/
/-- The claim's reading of the valid-name pattern: the name starts with a
letter, every following character is a letter, digit, hyphen or underscore,
and the name is 1 through 64 characters long. -/
def peerNameSpec (s : String) : Prop :=
  match s.data with
  | [] => False
  | c :: rest => isAsciiLetter c = true ∧ rest.all isPeerNameChar = true ∧ s.data.length ≤ 64

/-! ## Claims C7 and C8 — key migration -/
/-- The pure unfolding of `applyMigration` in the case where no encryption
step can fail (valid key size): the sequence of row updates it performs. -/
def pureApply (newKey : List Nat) (nonces : Nat → List Nat) :
    List PeerRow → List (String × List Nat) → Nat → List PeerRow
  | rows, [], _ => rows
  | rows, (nm, pt) :: rest, i =>
    pureApply newKey nonces (updatePassword rows nm (sealBlob pt newKey (nonces i))) rest (i + 1)

/-! ### Cipher lemmas -/
theorem gcmOpen_seal (key nonce plaintext : List Nat) :
    gcmOpen key nonce (gcmSealBody key nonce plaintext) = some plaintext := by
  unfold gcmOpen gcmSealBody
  have hlen : (plaintext ++ (nonce ++ key)).length - (nonce ++ key).length
      = plaintext.length := by
    simp [List.length_append]
  rw [if_pos]
  · rw [hlen, List.take_left]
  · constructor
    · simp [List.length_append]
    · rw [hlen, List.drop_left]

theorem decrypt_encrypt (plaintext key nonce : List Nat)
    (hkey : aesKeySizeOk key = true) (hnonce : nonce.length = gcmNonceSize) :
    decryptWithKey (sealBlob plaintext key nonce) key = .ok plaintext := by
  unfold decryptWithKey sealBlob
  rw [if_pos hkey, if_neg, ← hnonce, List.take_left, List.drop_left, gcmOpen_seal]
  simp [gcmSealBody, List.length_append, hnonce, gcmNonceSize]

theorem encryptWithKey_eq (plaintext key nonce : List Nat)
    (hkey : aesKeySizeOk key = true) :
    encryptWithKey plaintext key nonce = .ok (sealBlob plaintext key nonce) := by
  simp [encryptWithKey, hkey]

/-- Opening a sealed body with a different key of the same length fails. -/
theorem gcmOpen_seal_wrong_key (k1 k2 nonce plaintext : List Nat)
    (hne : k1 ≠ k2) (hlen : k1.length = k2.length) :
    gcmOpen k2 nonce (gcmSealBody k1 nonce plaintext) = none := by
  unfold gcmOpen gcmSealBody
  rw [if_neg]
  intro ⟨_, heq⟩
  have hlens : (plaintext ++ (nonce ++ k1)).length - (nonce ++ k2).length
      = plaintext.length := by
    simp [List.length_append, hlen]
  rw [hlens] at heq
  rw [List.drop_left] at heq
  exact hne (List.append_cancel_left heq)

theorem decrypt_encrypt_wrong_key (plaintext k1 k2 nonce : List Nat)
    (hne : k1 ≠ k2) (hlen : k1.length = k2.length)
    (hk2 : aesKeySizeOk k2 = true) (hnonce : nonce.length = gcmNonceSize) :
    decryptWithKey (sealBlob plaintext k1 nonce) k2 = .error .authenticationFailed := by
  unfold decryptWithKey sealBlob
  rw [if_pos hk2, if_neg, ← hnonce, List.take_left, List.drop_left,
    gcmOpen_seal_wrong_key k1 k2 nonce plaintext hne hlen]
  simp [gcmSealBody, List.length_append, hnonce, gcmNonceSize]

theorem decrypt_short (encrypted key : List Nat)
    (hshort : encrypted.length < gcmNonceSize) :
    ∃ e, decryptWithKey encrypted key = .error e := by
  unfold decryptWithKey
  by_cases hk : aesKeySizeOk key = true
  · exact ⟨.ciphertextTooShort, by rw [if_pos hk, if_pos hshort]⟩
  · exact ⟨.invalidKeySize key.length, by rw [if_neg hk]⟩

theorem sha256Model_length (msg : List Nat) : (sha256Model msg).length = 32 := by
  simp [sha256Model]

/-! ## Claim C1 — encrypt/decrypt roundtrip -/
/-- Claim C1: for every plaintext and every 32-byte key, decrypting the blob
produced by `encryptWithKey` with the same key returns exactly the
plaintext, for any choice of fresh nonce. -/
theorem encrypt_decrypt_roundtrip (plaintext key nonce : List Nat)
    (hkey : key.length = 32) (hnonce : nonce.length = gcmNonceSize) :
    ∃ blob, encryptWithKey plaintext key nonce = .ok blob ∧
      decryptWithKey blob key = .ok plaintext := by
  have hk : aesKeySizeOk key = true := by simp [aesKeySizeOk, hkey]
  exact ⟨sealBlob plaintext key nonce, encryptWithKey_eq plaintext key nonce hk,
    decrypt_encrypt plaintext key nonce hk hnonce⟩

/-- Witness for C1 at a concrete plaintext, key and nonce. -/
theorem encrypt_decrypt_roundtrip_witness :
    ∃ blob, encryptWithKey [1, 2, 3] (List.replicate 32 7) (List.replicate 12 5) = .ok blob ∧
      decryptWithKey blob (List.replicate 32 7) = .ok [1, 2, 3] :=
  encrypt_decrypt_roundtrip [1, 2, 3] (List.replicate 32 7) (List.replicate 12 5)
    (by decide) (by decide)

/-! ## Claim C2 — decryption failure modes -/
/-- Claim C2: `decryptWithKey` fails (returning no plaintext) whenever the
blob is shorter than one AEAD nonce, and decrypting a blob produced under
one 32-byte key with a different 32-byte key fails authentication. -/
theorem decrypt_failure_modes :
    (∀ blob key : List Nat, blob.length < gcmNonceSize →
      ∃ e, decryptWithKey blob key = .error e) ∧
    (∀ plaintext k1 k2 nonce blob : List Nat, k1.length = 32 → k2.length = 32 →
      k1 ≠ k2 → nonce.length = gcmNonceSize →
      encryptWithKey plaintext k1 nonce = .ok blob →
      decryptWithKey blob k2 = .error .authenticationFailed) := by
  refine ⟨fun blob key h => decrypt_short blob key h,
    fun plaintext k1 k2 nonce blob h1 h2 hne hn henc => ?_⟩
  have hk1 : aesKeySizeOk k1 = true := by simp [aesKeySizeOk, h1]
  have hk2 : aesKeySizeOk k2 = true := by simp [aesKeySizeOk, h2]
  rw [encryptWithKey_eq plaintext k1 nonce hk1] at henc
  cases henc
  exact decrypt_encrypt_wrong_key plaintext k1 k2 nonce hne (h1.trans h2.symm) hk2 hn

/-- Witness for C2: a concrete short blob fails, and a concrete blob sealed
under one key fails to decrypt under another. -/
theorem decrypt_failure_modes_witness :
    (∃ e, decryptWithKey [1, 2, 3] (List.replicate 32 7) = .error e) ∧
    decryptWithKey (sealBlob [9] (List.replicate 32 7) (List.replicate 12 5))
      (List.replicate 32 8) = .error .authenticationFailed :=
  ⟨decrypt_failure_modes.1 [1, 2, 3] (List.replicate 32 7) (by decide),
    decrypt_failure_modes.2 [9] (List.replicate 32 7) (List.replicate 32 8)
      (List.replicate 12 5) (sealBlob [9] (List.replicate 32 7) (List.replicate 12 5))
      (by decide) (by decide) (by decide) (by decide) (by decide)⟩

theorem isPeerNameChar_utf8 (c : Char) (h : isPeerNameChar c = true) :
    charUtf8Bytes c = 1 := by
  simp only [isPeerNameChar, isAsciiLetter, Bool.or_eq_true, Bool.and_eq_true,
    decide_eq_true_eq, beq_iff_eq] at h
  have hlt : c.toNat < 0x80 := by
    rcases h with ((((h | h) | h) | rfl) | rfl)
    · omega
    · omega
    · omega
    · decide
    · decide
  simp [charUtf8Bytes, hlt]

theorem all_utf8_one_sum (l : List Char) (h : ∀ c ∈ l, charUtf8Bytes c = 1) :
    (l.map charUtf8Bytes).sum = l.length := by
  induction l with
  | nil => simp
  | cons c cs ih =>
    simp only [List.map_cons, List.sum_cons, List.length_cons,
      h c (List.mem_cons_self c cs), ih (fun d hd => h d (List.mem_cons_of_mem c hd))]
    omega

theorem peerNameMatches_goStrLen (s : String) (h : peerNameMatches s = true) :
    goStrLen s = s.data.length := by
  obtain ⟨data⟩ := s
  cases data with
  | nil => exact absurd h (by decide)
  | cons a rest =>
    have h2 : isAsciiLetter a = true ∧ rest.all isPeerNameChar = true := by
      have h1 : (isAsciiLetter a && rest.all isPeerNameChar) = true := h
      exact Bool.and_eq_true_iff.mp h1
    apply all_utf8_one_sum
    intro c hc
    rcases List.mem_cons.mp hc with rfl | hmem
    · exact isPeerNameChar_utf8 c (by simp [isPeerNameChar, h2.1])
    · exact isPeerNameChar_utf8 c (List.all_eq_true.mp h2.2 c hmem)

theorem string_eq_empty_iff (s : String) : s = "" ↔ s.data = [] := by
  constructor
  · intro h; rw [h]
  · intro h; apply String.ext; rw [h]

/-- Claim C6: `validatePeerName` accepts a string exactly when it starts
with a letter, continues with letters/digits/hyphens/underscores and is
1–64 characters long; `"bot1"` is accepted while `"1bot"`, a 65-character
name and the empty name are rejected; and `AddFederationPeer` fails with a
validation error on every rejected name. -/
theorem validatePeerName_spec :
    (∀ s : String, validatePeerName s = .ok () ↔ peerNameSpec s) ∧
    validatePeerName "bot1" = .ok () ∧
    validatePeerName "1bot" = .error .badPattern ∧
    validatePeerName (String.mk (List.replicate 65 'a')) = .error .tooLong ∧
    validatePeerName "" = .error .emptyName ∧
    (∀ (st : DoltStore) (peer : FederationPeer) (nonce : List Nat) (e : NameError),
      validatePeerName peer.name = .error e →
      st.AddFederationPeer peer nonce = .error (.invalidPeerName e)) := by
  refine ⟨fun s => ?_, by decide, by decide, by decide, by decide,
    fun st peer nonce e he => ?_⟩
  · obtain ⟨data⟩ := s
    cases data with
    | nil =>
      exact ⟨fun h => absurd h (by decide), fun h => False.elim h⟩
    | cons a rest =>
      have hne : String.mk (a :: rest) ≠ "" := fun hc =>
        List.noConfusion ((string_eq_empty_iff _).mp hc)
      constructor
      · intro h
        unfold validatePeerName at h
        rw [if_neg hne] at h
        by_cases h2 : goStrLen (String.mk (a :: rest)) > 64
        · rw [if_pos h2] at h; cases h
        · rw [if_neg h2] at h
          by_cases h3 : peerNameMatches (String.mk (a :: rest)) = true
          · have hlen := peerNameMatches_goStrLen _ h3
            have h4 : (isAsciiLetter a && rest.all isPeerNameChar) = true := h3
            obtain ⟨ha, hrest⟩ := Bool.and_eq_true_iff.mp h4
            exact ⟨ha, hrest, by omega⟩
          · rw [if_pos h3] at h; cases h
      · intro h
        obtain ⟨ha, hrest, hlen⟩ := h
        have hmatch : peerNameMatches (String.mk (a :: rest)) = true := by
          show (isAsciiLetter a && rest.all isPeerNameChar) = true
          simp [ha, hrest]
        have hgo := peerNameMatches_goStrLen _ hmatch
        unfold validatePeerName
        rw [if_neg hne, if_neg (by omega), if_neg (not_not_intro hmatch)]
  · unfold DoltStore.AddFederationPeer
    rw [he]

/-! ## Claim C4 — subprocess credential isolation -/
theorem goPrefix_append (xs ys : List Char) : strStartsWith.go (xs ++ ys) xs = true := by
  induction xs with
  | nil => simp [strStartsWith.go]
  | cons a as ih => simp [strStartsWith.go, ih]

theorem strStartsWith_append (p s : String) : strStartsWith (p ++ s) p = true := by
  unfold strStartsWith
  rw [String.data_append]
  exact goPrefix_append p.data s.data

theorem isCredEntry_user (u : String) : isCredEntry ("DOLT_REMOTE_USER=" ++ u) = true := by
  simp [isCredEntry, strStartsWith_append]

theorem isCredEntry_password (p : String) :
    isCredEntry ("DOLT_REMOTE_PASSWORD=" ++ p) = true := by
  simp [isCredEntry, strStartsWith_append]

/-- Claim C4: for non-empty credentials, `applyToCmd` attaches to the child
command the ambient environment with pre-existing credential entries
removed, plus the variables for the non-empty credential components; the
ambient environment itself is a read-only snapshot (the model is a pure
function of it), so concurrent invocations each see only their own
credentials. -/
theorem applyToCmd_spec (u p : String) (ambient : ProcEnv) (cmd : ExecCmd)
    (hne : u ≠ "" ∨ p ≠ "") :
    ∃ env2, applyToCmd (some ⟨u, p⟩) ambient cmd = { cmd with env := some env2 } ∧
      env2.filter (fun e => !(isCredEntry e)) = ambient.filter (fun e => !(isCredEntry e)) ∧
      env2.filter isCredEntry =
        (if u ≠ "" then ["DOLT_REMOTE_USER=" ++ u] else []) ++
        (if p ≠ "" then ["DOLT_REMOTE_PASSWORD=" ++ p] else []) := by
  have hemp : credsEmpty (some ⟨u, p⟩) = false := by
    rcases hne with h | h <;> simp [credsEmpty, h]
  have hfeq : (fun e => !(strStartsWith e "DOLT_REMOTE_USER=") &&
      !(strStartsWith e "DOLT_REMOTE_PASSWORD=")) = (fun e => !(isCredEntry e)) := by
    funext e
    simp [isCredEntry, Bool.not_or]
  have hbase : ∀ e ∈ ambient.filter (fun e => !(isCredEntry e)), isCredEntry e = false := by
    intro e he
    have := List.of_mem_filter he
    simpa using this
  refine ⟨ambient.filter (fun e => !(isCredEntry e)) ++
      ((if u ≠ "" then ["DOLT_REMOTE_USER=" ++ u] else []) ++
       (if p ≠ "" then ["DOLT_REMOTE_PASSWORD=" ++ p] else [])), ?_, ?_, ?_⟩
  · unfold applyToCmd
    rw [hemp]
    simp only [Bool.false_eq_true, if_false, hfeq]
    by_cases hu : u = "" <;> by_cases hp : p = "" <;>
      simp [hu, hp, List.append_assoc]
  · rw [List.filter_append, List.filter_append]
    have h1 : (ambient.filter (fun e => !(isCredEntry e))).filter
        (fun e => !(isCredEntry e)) = ambient.filter (fun e => !(isCredEntry e)) := by
      apply List.filter_eq_self.mpr
      intro e he
      simp [hbase e he]
    have h2 : ((if u ≠ "" then ["DOLT_REMOTE_USER=" ++ u] else []) : ProcEnv).filter
        (fun e => !(isCredEntry e)) = [] := by
      by_cases hu : u = "" <;> simp [hu, isCredEntry_user]
    have h3 : ((if p ≠ "" then ["DOLT_REMOTE_PASSWORD=" ++ p] else []) : ProcEnv).filter
        (fun e => !(isCredEntry e)) = [] := by
      by_cases hp : p = "" <;> simp [hp, isCredEntry_password]
    rw [h1, h2, h3, List.append_nil, List.append_nil]
  · rw [List.filter_append, List.filter_append]
    have h1 : (ambient.filter (fun e => !(isCredEntry e))).filter isCredEntry = [] := by
      apply List.filter_eq_nil_iff.mpr
      intro e he
      simp [hbase e he]
    have h2 : ((if u ≠ "" then ["DOLT_REMOTE_USER=" ++ u] else []) : ProcEnv).filter
        isCredEntry = (if u ≠ "" then ["DOLT_REMOTE_USER=" ++ u] else []) := by
      by_cases hu : u = "" <;> simp [hu, isCredEntry_user]
    have h3 : ((if p ≠ "" then ["DOLT_REMOTE_PASSWORD=" ++ p] else []) : ProcEnv).filter
        isCredEntry = (if p ≠ "" then ["DOLT_REMOTE_PASSWORD=" ++ p] else []) := by
      by_cases hp : p = "" <;> simp [hp, isCredEntry_password]
    rw [h1, h2, h3, List.nil_append]

/-- Witness for C4 at concrete credentials, ambient environment and
command. -/
theorem applyToCmd_spec_witness :
    ∃ env2, applyToCmd (some ⟨"a", "a1"⟩) ["HOME=/root", "DOLT_REMOTE_USER=stale"]
        ⟨none⟩ = { env := some env2 } ∧
      env2.filter (fun e => !(isCredEntry e)) =
        (["HOME=/root", "DOLT_REMOTE_USER=stale"] : ProcEnv).filter
          (fun e => !(isCredEntry e)) ∧
      env2.filter isCredEntry =
        (if ("a" : String) ≠ "" then ["DOLT_REMOTE_USER=" ++ "a"] else []) ++
        (if ("a1" : String) ≠ "" then ["DOLT_REMOTE_PASSWORD=" ++ "a1"] else []) :=
  applyToCmd_spec "a" "a1" ["HOME=/root", "DOLT_REMOTE_USER=stale"] ⟨none⟩
    (Or.inl (by decide))

/-! ## Claim C3 — shared-environment credential injection -/
theorem goPrefix_mismatch (cs xs bs : List Char) (a b : Char) (hab : a ≠ b) :
    strStartsWith.go (cs ++ a :: xs) (cs ++ b :: bs) = false := by
  induction cs with
  | nil => simp [strStartsWith.go, hab]
  | cons c cs ih => simp [strStartsWith.go, ih]

theorem user_entry_not_password (u : String) :
    strStartsWith ("DOLT_REMOTE_USER=" ++ u) "DOLT_REMOTE_PASSWORD=" = false := by
  unfold strStartsWith
  rw [String.data_append]
  have h1 : ("DOLT_REMOTE_USER=" : String).data ++ u.data
      = ("DOLT_REMOTE_" : String).data ++ 'U' :: (("SER=" : String).data ++ u.data) := by
    rw [show ("DOLT_REMOTE_USER=" : String).data
      = ("DOLT_REMOTE_" : String).data ++ 'U' :: ("SER=" : String).data by decide]
    simp
  have h2 : ("DOLT_REMOTE_PASSWORD=" : String).data
      = ("DOLT_REMOTE_" : String).data ++ 'P' :: ("ASSWORD=" : String).data := by decide
  rw [h1, h2]
  exact goPrefix_mismatch _ _ _ 'U' 'P' (by decide)

theorem password_entry_not_user (p : String) :
    strStartsWith ("DOLT_REMOTE_PASSWORD=" ++ p) "DOLT_REMOTE_USER=" = false := by
  unfold strStartsWith
  rw [String.data_append]
  have h1 : ("DOLT_REMOTE_PASSWORD=" : String).data ++ p.data
      = ("DOLT_REMOTE_" : String).data ++ 'P' :: (("ASSWORD=" : String).data ++ p.data) := by
    rw [show ("DOLT_REMOTE_PASSWORD=" : String).data
      = ("DOLT_REMOTE_" : String).data ++ 'P' :: ("ASSWORD=" : String).data by decide]
    simp
  have h2 : ("DOLT_REMOTE_USER=" : String).data
      = ("DOLT_REMOTE_" : String).data ++ 'U' :: ("SER=" : String).data := by decide
  rw [h1, h2]
  exact goPrefix_mismatch _ _ _ 'P' 'U' (by decide)

theorem setEnvVar_mem (env : ProcEnv) (k v : String) :
    (k ++ "=" ++ v) ∈ setEnvVar env k v := by
  unfold setEnvVar
  by_cases h : env.any (fun e => strStartsWith e (k ++ "=")) = true
  · rw [if_pos h]
    obtain ⟨w, hw, hsw⟩ := List.any_eq_true.mp h
    exact List.mem_map.mpr ⟨w, hw, by rw [if_pos hsw]⟩
  · rw [if_neg h]
    simp

theorem setEnvVar_preserve (env : ProcEnv) (k v e : String) (he : e ∈ env)
    (hne : strStartsWith e (k ++ "=") = false) : e ∈ setEnvVar env k v := by
  unfold setEnvVar
  by_cases h : env.any (fun e => strStartsWith e (k ++ "=")) = true
  · rw [if_pos h]
    exact List.mem_map.mpr ⟨e, he, by rw [if_neg (by simp [hne])]⟩
  · rw [if_neg h]
    exact List.mem_append_left _ he

theorem setFederationCredentials_user (u p : String) (env : ProcEnv) (hu : u ≠ "") :
    ("DOLT_REMOTE_USER=" ++ u) ∈ setFederationCredentials u p env := by
  have hkey : ("DOLT_REMOTE_USER" ++ "=" : String) = "DOLT_REMOTE_USER=" := by decide
  unfold setFederationCredentials
  rw [if_pos hu]
  by_cases hp : p ≠ ""
  · rw [if_pos hp]
    apply setEnvVar_preserve
    · have := setEnvVar_mem env "DOLT_REMOTE_USER" u
      rwa [hkey] at this
    · rw [show ("DOLT_REMOTE_PASSWORD" ++ "=" : String) = "DOLT_REMOTE_PASSWORD=" by decide]
      exact user_entry_not_password u
  · rw [if_neg hp]
    have := setEnvVar_mem env "DOLT_REMOTE_USER" u
    rwa [hkey] at this

theorem setFederationCredentials_password (u p : String) (env : ProcEnv) (hp : p ≠ "") :
    ("DOLT_REMOTE_PASSWORD=" ++ p) ∈ setFederationCredentials u p env := by
  have hkey : ("DOLT_REMOTE_PASSWORD" ++ "=" : String) = "DOLT_REMOTE_PASSWORD=" := by decide
  unfold setFederationCredentials
  rw [if_pos hp]
  have := setEnvVar_mem (if u ≠ "" then setEnvVar env "DOLT_REMOTE_USER" u else env)
    "DOLT_REMOTE_PASSWORD" p
  rwa [hkey] at this

theorem cleanup_no_cred (env : ProcEnv) :
    ∀ e ∈ federationCredentialsCleanup env, isCredEntry e = false := by
  intro e he
  unfold federationCredentialsCleanup unsetEnvVar at he
  have h2 := List.of_mem_filter he
  have h1 := List.of_mem_filter (List.mem_of_mem_filter he)
  rw [show ("DOLT_REMOTE_USER" ++ "=" : String) = "DOLT_REMOTE_USER=" by decide] at h1
  rw [show ("DOLT_REMOTE_PASSWORD" ++ "=" : String) = "DOLT_REMOTE_PASSWORD=" by decide] at h2
  simp only [Bool.not_eq_true', decide_eq_true_eq] at h1 h2
  simp [isCredEntry, h1, h2]

/-- Counterexample to claim C3 as stated: with credentials whose username is
`"u"` and whose password is empty, the wrapped operation does not observe
both credential variables — the probe below runs under `withEnvCredentials`
and reports the password variable absent, because
`setFederationCredentials` sets only the variables whose component is
non-empty. -/
theorem withEnvCredentials_not_both_set :
    withEnvCredentials (some ⟨"u", ""⟩)
      (fun env => (if env.any (fun e => strStartsWith e "DOLT_REMOTE_PASSWORD=") then
        Except.ok () else Except.error "password var absent", env)) []
      = (Except.error "password var absent", []) := by decide

/-- Claim C3 (amended): for non-empty credentials, `withEnvCredentials`
sets each credential variable whose component is non-empty, runs `fn` on
the resulting environment, and unconditionally unsets both variables before
returning — also when `fn` returns an error — so the environment it leaves
behind contains no credential entry.  (The `federationEnvMutex` lock/unlock
bracketing this sequence is straight-line in the source; mutual exclusion
between threads is outside this sequential model.) -/
theorem withEnvCredentials_cleanup (u p : String)
    (fn : ProcEnv → Except String Unit × ProcEnv) (env : ProcEnv)
    (hne : u ≠ "" ∨ p ≠ "") :
    withEnvCredentials (some ⟨u, p⟩) fn env =
      ((fn (setFederationCredentials u p env)).1,
        federationCredentialsCleanup (fn (setFederationCredentials u p env)).2) ∧
    (u ≠ "" → ("DOLT_REMOTE_USER=" ++ u) ∈ setFederationCredentials u p env) ∧
    (p ≠ "" → ("DOLT_REMOTE_PASSWORD=" ++ p) ∈ setFederationCredentials u p env) ∧
    (∀ e ∈ (withEnvCredentials (some ⟨u, p⟩) fn env).2, isCredEntry e = false) ∧
    (∀ msg env2, fn (setFederationCredentials u p env) = (.error msg, env2) →
      withEnvCredentials (some ⟨u, p⟩) fn env
        = (.error msg, federationCredentialsCleanup env2)) := by
  have hemp : credsEmpty (some ⟨u, p⟩) = false := by
    rcases hne with h | h <;> simp [credsEmpty, h]
  have hrun : withEnvCredentials (some ⟨u, p⟩) fn env =
      ((fn (setFederationCredentials u p env)).1,
        federationCredentialsCleanup (fn (setFederationCredentials u p env)).2) := by
    unfold withEnvCredentials
    rw [hemp]
    simp
  refine ⟨hrun, fun hu => setFederationCredentials_user u p env hu,
    fun hp => setFederationCredentials_password u p env hp, ?_, ?_⟩
  · rw [hrun]
    exact cleanup_no_cred _
  · intro msg env2 hfn
    rw [hrun, hfn]

/-- Witness for the amended C3: a concrete failing operation propagates its
error and the environment handed back went through the cleanup. -/
theorem withEnvCredentials_cleanup_witness :
    withEnvCredentials (some ⟨"u", "pw"⟩)
        (fun env => (Except.error "boom", env)) ["HOME=/root"] =
      (Except.error "boom",
        federationCredentialsCleanup (setFederationCredentials "u" "pw" ["HOME=/root"])) :=
  (withEnvCredentials_cleanup "u" "pw" (fun env => (Except.error "boom", env))
      ["HOME=/root"] (Or.inl (by decide))).2.2.2.2 "boom"
    (setFederationCredentials "u" "pw" ["HOME=/root"]) rfl

/-! ## Claim C5 — empty password stored as absence -/
theorem find?_upsertPeer (rows : List PeerRow) (r : PeerRow) :
    (upsertPeer rows r).find? (fun x => x.name = r.name) = some r := by
  unfold upsertPeer
  by_cases h : rows.any (fun x => x.name = r.name) = true
  · rw [if_pos h]
    induction rows with
    | nil => simp at h
    | cons x xs ih =>
      simp only [List.map_cons]
      by_cases hx : x.name = r.name
      · rw [if_pos hx, List.find?_cons_of_pos _ (by simp)]
      · rw [if_neg hx, List.find?_cons_of_neg _ (by simp [hx])]
        exact ih (by simpa [List.any_cons, hx] using h)
  · rw [if_neg h]
    induction rows with
    | nil => simp [List.find?_cons_of_pos]
    | cons x xs ih =>
      have hx : ¬(x.name = r.name) := by
        intro hc
        exact h (by simp [List.any_cons, hc])
      rw [List.cons_append, List.find?_cons_of_neg _ (by simp [hx])]
      exact ih (fun hc => h (by
        rcases List.any_eq_true.mp hc with ⟨w, hw, hww⟩
        exact List.any_eq_true.mpr ⟨w, List.mem_cons_of_mem x hw, hww⟩))

theorem getFederationPeer_eq (s : DoltStore) (rows : List PeerRow) (name : String)
    (hrows : s.federationPeers = some rows) :
    s.GetFederationPeer name =
      (match rows.find? (fun r => r.name = name) with
      | none => .error (.notFound name)
      | some r =>
        if r.passwordEncrypted ≠ [] then
          match s.decryptPassword r.passwordEncrypted with
          | .error e => .error (.decryptFailed e)
          | .ok pwd =>
            .ok { name := r.name, remoteURL := r.remoteURL, username := r.username,
                  password := pwd, sovereignty := r.sovereignty }
        else
          .ok { name := r.name, remoteURL := r.remoteURL, username := r.username,
                password := [], sovereignty := r.sovereignty }) := by
  unfold DoltStore.GetFederationPeer
  rw [hrows]

theorem getFederationPeer_found_empty (s : DoltStore) (rows : List PeerRow)
    (name : String) (r : PeerRow) (hrows : s.federationPeers = some rows)
    (hfind : rows.find? (fun x => x.name = name) = some r)
    (hblob : r.passwordEncrypted = []) :
    s.GetFederationPeer name =
      .ok { name := r.name, remoteURL := r.remoteURL, username := r.username,
            password := [], sovereignty := r.sovereignty } := by
  rw [getFederationPeer_eq s rows name hrows, hfind]
  simp [hblob]

/-- Claim C5: an empty password is stored as the complete absence of
ciphertext — `encryptPassword` of the empty password yields no blob
(whatever the key state), `AddFederationPeer` stores an empty blob for the
row, and reading the record back through the store yields the empty
password. -/
theorem empty_password_roundtrip (s : DoltStore) (rows : List PeerRow)
    (peer : FederationPeer) (nonce : List Nat)
    (hrows : s.federationPeers = some rows)
    (hname : validatePeerName peer.name = .ok ())
    (hpw : peer.password = []) :
    (∀ (t : DoltStore) (n : List Nat), t.encryptPassword [] n = .ok []) ∧
    ∃ s2, s.AddFederationPeer peer nonce = .ok s2 ∧
      (∃ rows2, s2.federationPeers = some rows2 ∧
        rows2.find? (fun x => x.name = peer.name) =
          some { name := peer.name, remoteURL := peer.remoteURL, username := peer.username,
                 passwordEncrypted := [], sovereignty := peer.sovereignty }) ∧
      ∃ p2, s2.GetFederationPeer peer.name = .ok p2 ∧ p2.password = [] := by
  refine ⟨fun t n => by simp [DoltStore.encryptPassword], ?_⟩
  have hadd : s.AddFederationPeer peer nonce =
      .ok { s with
            federationPeers := some (upsertPeer rows
              { name := peer.name, remoteURL := peer.remoteURL, username := peer.username,
                passwordEncrypted := [], sovereignty := peer.sovereignty }),
            remotes := addRemote s.remotes peer.name peer.remoteURL } := by
    unfold DoltStore.AddFederationPeer
    rw [hname, hrows]
    simp [hpw]
  refine ⟨_, hadd,
    ⟨upsertPeer rows
        { name := peer.name, remoteURL := peer.remoteURL, username := peer.username,
          passwordEncrypted := [], sovereignty := peer.sovereignty }, rfl,
      find?_upsertPeer rows
        { name := peer.name, remoteURL := peer.remoteURL, username := peer.username,
          passwordEncrypted := [], sovereignty := peer.sovereignty }⟩, ?_⟩
  refine ⟨{ name := peer.name, remoteURL := peer.remoteURL, username := peer.username,
            password := [], sovereignty := peer.sovereignty }, ?_, rfl⟩
  exact getFederationPeer_found_empty _ _ peer.name
    { name := peer.name, remoteURL := peer.remoteURL, username := peer.username,
      passwordEncrypted := [], sovereignty := peer.sovereignty }
    rfl
    (find?_upsertPeer rows
      { name := peer.name, remoteURL := peer.remoteURL, username := peer.username,
        passwordEncrypted := [], sovereignty := peer.sovereignty })
    rfl

/-- Witness for C5 on a concrete store, peer and nonce. -/
theorem empty_password_roundtrip_witness :
    (∀ (t : DoltStore) (n : List Nat), t.encryptPassword [] n = .ok []) ∧
    ∃ s2, DoltStore.AddFederationPeer ⟨"/data", none, true, some [], []⟩
        ⟨"origin", "https://x/y", "u", [], "local"⟩ [] = .ok s2 ∧
      (∃ rows2, s2.federationPeers = some rows2 ∧
        rows2.find? (fun x => x.name = "origin") =
          some { name := "origin", remoteURL := "https://x/y", username := "u",
                 passwordEncrypted := [], sovereignty := "local" }) ∧
      ∃ p2, s2.GetFederationPeer "origin" = .ok p2 ∧ p2.password = [] :=
  empty_password_roundtrip ⟨"/data", none, true, some [], []⟩ []
    ⟨"origin", "https://x/y", "u", [], "local"⟩ [] rfl (by decide) rfl

/-! ## Claim C9 — behaviour without a data directory -/
/-- Counterexample to claim C9 as stated: with an empty `dbPath`, key
initialization succeeds and leaves the key uninitialized, but storing a
peer with a non-empty password then fails with a key-not-initialized
`CryptoError` — the password is not passed through unencrypted. -/
theorem uninitialized_key_store_fails :
    DoltStore.initCredentialKey ⟨"", none, true, some [], []⟩ none
      (List.replicate 32 1) (fun _ => List.replicate 12 0) =
      .ok ⟨"", none, true, some [], []⟩ ∧
    DoltStore.AddFederationPeer ⟨"", none, true, some [], []⟩
      ⟨"bot1", "https://x/y", "usr", [1], ""⟩ (List.replicate 12 0) =
      .error (.encryptFailed .keyNotInitialized) :=
  ⟨rfl, by decide⟩

/-- Claim C9 (amended): with no persistent data directory configured (empty
`dbPath`), `initCredentialKey` succeeds without error and leaves the store
unchanged (no key); encryption is then unavailable for the instance, so
adding a peer with an empty password succeeds while adding a peer with a
non-empty password fails with a key-not-initialized `CryptoError`. -/
theorem initCredentialKey_no_dbPath (s : DoltStore) (kf : Option (List Nat))
    (randKey : List Nat) (nonces : Nat → List Nat) (peer : FederationPeer)
    (nonce : List Nat) (rows : List PeerRow)
    (hpath : s.dbPath = "")
    (hkey : s.credentialKey = none)
    (hname : validatePeerName peer.name = .ok ())
    (hrows : s.federationPeers = some rows) :
    s.initCredentialKey kf randKey nonces = .ok s ∧
    (peer.password ≠ [] →
      s.AddFederationPeer peer nonce = .error (.encryptFailed .keyNotInitialized)) ∧
    (peer.password = [] → ∃ s2, s.AddFederationPeer peer nonce = .ok s2) := by
  refine ⟨?_, ?_, ?_⟩
  · unfold DoltStore.initCredentialKey
    rw [if_pos hpath]
  · intro hpw
    unfold DoltStore.AddFederationPeer
    rw [hname]
    simp only [if_pos hpw]
    unfold DoltStore.encryptPassword
    rw [if_neg (by simpa using hpw), hkey]
  · intro hpw
    unfold DoltStore.AddFederationPeer
    rw [hname, hrows]
    simp [hpw]

/-- Witness for the amended C9 on a concrete store. -/
theorem initCredentialKey_no_dbPath_witness :
    DoltStore.initCredentialKey ⟨"", none, true, some [], []⟩ none
      (List.replicate 32 1) (fun _ => List.replicate 12 0) =
      .ok ⟨"", none, true, some [], []⟩ ∧
    (([2] : List Nat) ≠ [] →
      DoltStore.AddFederationPeer ⟨"", none, true, some [], []⟩
        ⟨"bot2", "https://x/y", "usr", [2], ""⟩ [] =
        .error (.encryptFailed .keyNotInitialized)) ∧
    (([2] : List Nat) = [] →
      ∃ s2, DoltStore.AddFederationPeer ⟨"", none, true, some [], []⟩
        ⟨"bot2", "https://x/y", "usr", [2], ""⟩ [] = .ok s2) :=
  initCredentialKey_no_dbPath ⟨"", none, true, some [], []⟩ none
    (List.replicate 32 1) (fun _ => List.replicate 12 0)
    ⟨"bot2", "https://x/y", "usr", [2], ""⟩ [] [] rfl rfl (by decide) rfl

/-! ## Claim C10 — reading absent blobs never needs the key -/
theorem decryptPeerRows_empty (s : DoltStore) (l : List PeerRow)
    (h : ∀ r ∈ l, r.passwordEncrypted = []) :
    ∃ ps, decryptPeerRows s l = .ok ps ∧ ∀ q ∈ ps, q.password = [] := by
  induction l with
  | nil => exact ⟨[], rfl, by simp⟩
  | cons r rest ih =>
    obtain ⟨ps, hps, hall⟩ := ih (fun x hx => h x (List.mem_cons_of_mem r hx))
    have hr := h r (List.mem_cons_self r rest)
    refine ⟨{ name := r.name, remoteURL := r.remoteURL, username := r.username,
              password := [], sovereignty := r.sovereignty } :: ps, ?_, ?_⟩
    · unfold decryptPeerRows
      rw [if_neg (by simp [hr]), hps]
      rfl
    · intro q hq
      rcases List.mem_cons.mp hq with rfl | hmem
      · rfl
      · exact hall q hmem

/-- Claim C10: for every store — including one whose encryption key was
never initialized — a peer whose stored blob is absent/empty reads back
with the empty password: `decryptPassword` short-circuits on empty input
before consulting the key, `GetFederationPeer` skips decryption for an
empty blob, and `ListFederationPeers` succeeds whenever every stored blob
is empty. -/
theorem empty_blob_reads :
    (∀ s : DoltStore, s.decryptPassword [] = .ok []) ∧
    (∀ (s : DoltStore) (rows : List PeerRow) (name : String) (r : PeerRow),
      s.federationPeers = some rows →
      rows.find? (fun x => x.name = name) = some r →
      r.passwordEncrypted = [] →
      s.GetFederationPeer name =
        .ok { name := r.name, remoteURL := r.remoteURL, username := r.username,
              password := [], sovereignty := r.sovereignty }) ∧
    (∀ (s : DoltStore) (rows : List PeerRow),
      s.federationPeers = some rows →
      (∀ r ∈ rows, r.passwordEncrypted = []) →
      ∃ ps, s.ListFederationPeers = .ok ps ∧ ∀ q ∈ ps, q.password = []) := by
  refine ⟨fun s => by simp [DoltStore.decryptPassword], ?_, ?_⟩
  · intro s rows name r hrows hfind hblob
    exact getFederationPeer_found_empty s rows name r hrows hfind hblob
  · intro s rows hrows hall
    unfold DoltStore.ListFederationPeers
    rw [hrows]
    exact decryptPeerRows_empty s _
      (fun r hr => hall r (List.mem_mergeSort.mp hr))

/-- Witness for C10 on a concrete key-less store holding one row with an
absent blob. -/
theorem empty_blob_reads_witness :
    DoltStore.decryptPassword ⟨"", none, true, some [], []⟩ [] = .ok [] ∧
    DoltStore.GetFederationPeer
      ⟨"", none, true, some [⟨"alpha", "https://a", "u", [], "s"⟩], []⟩ "alpha" =
      .ok { name := "alpha", remoteURL := "https://a", username := "u",
            password := [], sovereignty := "s" } ∧
    ∃ ps, DoltStore.ListFederationPeers
        ⟨"", none, true, some [⟨"alpha", "https://a", "u", [], "s"⟩], []⟩ = .ok ps ∧
      ∀ q ∈ ps, q.password = [] :=
  ⟨empty_blob_reads.1 ⟨"", none, true, some [], []⟩,
    empty_blob_reads.2.1 ⟨"", none, true, some [⟨"alpha", "https://a", "u", [], "s"⟩], []⟩
      [⟨"alpha", "https://a", "u", [], "s"⟩] "alpha" ⟨"alpha", "https://a", "u", [], "s"⟩
      rfl (by decide) rfl,
    empty_blob_reads.2.2 ⟨"", none, true, some [⟨"alpha", "https://a", "u", [], "s"⟩], []⟩
      [⟨"alpha", "https://a", "u", [], "s"⟩] rfl
      (fun r hr => by
        rcases List.mem_singleton.mp hr with rfl
        rfl)⟩

theorem applyMigration_eq_pureApply (newKey : List Nat) (nonces : Nat → List Nat)
    (hkey : aesKeySizeOk newKey = true) :
    ∀ (entries : List (String × List Nat)) (rows : List PeerRow) (i : Nat),
      applyMigration newKey nonces rows entries i =
        .ok (pureApply newKey nonces rows entries i) := by
  intro entries
  induction entries with
  | nil => intro rows i; rfl
  | cons e rest ih =>
    intro rows i
    obtain ⟨nm, pt⟩ := e
    rw [applyMigration, encryptWithKey_eq pt newKey (nonces i) hkey, pureApply]
    exact ih _ _

theorem length_updatePassword (rows : List PeerRow) (nm : String) (blob : List Nat) :
    (updatePassword rows nm blob).length = rows.length := by
  simp [updatePassword]

theorem length_pureApply (newKey : List Nat) (nonces : Nat → List Nat) :
    ∀ (entries : List (String × List Nat)) (rows : List PeerRow) (i : Nat),
      (pureApply newKey nonces rows entries i).length = rows.length := by
  intro entries
  induction entries with
  | nil => intro rows i; rfl
  | cons e rest ih =>
    intro rows i
    obtain ⟨nm, pt⟩ := e
    rw [pureApply, ih, length_updatePassword]

theorem getElem?_updatePassword (rows : List PeerRow) (nm : String) (blob : List Nat)
    (idx : Nat) :
    (updatePassword rows nm blob)[idx]? =
      rows[idx]?.map (fun r => if r.name = nm then { r with passwordEncrypted := blob } else r) := by
  simp [updatePassword]

theorem pureApply_not_mem (newKey : List Nat) (nonces : Nat → List Nat) :
    ∀ (entries : List (String × List Nat)) (rows : List PeerRow) (i idx : Nat) (r : PeerRow),
      rows[idx]? = some r → r.name ∉ entries.map Prod.fst →
      (pureApply newKey nonces rows entries i)[idx]? = some r := by
  intro entries
  induction entries with
  | nil => intro rows i idx r hr _; exact hr
  | cons e rest ih =>
    intro rows i idx r hr hmem
    obtain ⟨nm, pt⟩ := e
    simp only [List.map_cons, List.mem_cons, not_or] at hmem
    rw [pureApply]
    apply ih _ _ _ r _ hmem.2
    rw [getElem?_updatePassword, hr]
    simp [hmem.1]

theorem pureApply_mem_unique (newKey : List Nat) (nonces : Nat → List Nat) :
    ∀ (entries : List (String × List Nat)) (rows : List PeerRow) (i idx : Nat)
      (r : PeerRow) (pt : List Nat),
      rows[idx]? = some r → (entries.map Prod.fst).Nodup → (r.name, pt) ∈ entries →
      ∃ j, (pureApply newKey nonces rows entries i)[idx]? =
        some { r with passwordEncrypted := sealBlob pt newKey (nonces j) } := by
  intro entries
  induction entries with
  | nil => intro rows i idx r pt _ _ hmem; exact absurd hmem (List.not_mem_nil _)
  | cons e rest ih =>
    intro rows i idx r pt hr hnodup hmem
    obtain ⟨nm, qt⟩ := e
    simp only [List.map_cons, List.nodup_cons] at hnodup
    by_cases hnm : nm = r.name
    · subst hnm
      have hqt : qt = pt := by
        rcases List.mem_cons.mp hmem with heq | hrest
        · have := congrArg Prod.snd heq
          simpa using this.symm
        · exact absurd (List.mem_map.mpr ⟨(r.name, pt), hrest, rfl⟩) hnodup.1
      subst hqt
      refine ⟨i, ?_⟩
      rw [pureApply]
      apply pureApply_not_mem
      · rw [getElem?_updatePassword, hr]
        simp
      · exact hnodup.1
    · have hmem2 : (r.name, pt) ∈ rest := by
        rcases List.mem_cons.mp hmem with heq | hrest
        · exact absurd (congrArg Prod.fst heq).symm hnm
        · exact hrest
      have hrn : ¬ r.name = nm := fun h => hnm h.symm
      obtain ⟨j, hj⟩ := ih (updatePassword rows nm (sealBlob qt newKey (nonces i)))
        (i + 1) idx r pt (by rw [getElem?_updatePassword, hr]; simp [hrn]) hnodup.2 hmem2
      exact ⟨j, by rw [pureApply]; exact hj⟩

theorem rowEntry_name (oldKey : List Nat) (r : PeerRow) (e : String × List Nat)
    (h : rowEntry oldKey r = some e) : e.1 = r.name := by
  unfold rowEntry at h
  by_cases hb : r.passwordEncrypted = []
  · rw [if_pos hb] at h; cases h
  · rw [if_neg hb] at h
    cases hd : decryptWithKey r.passwordEncrypted oldKey with
    | ok pt => rw [hd] at h; cases h; rfl
    | error e2 => rw [hd] at h; cases h

theorem migrationEntries_names_sublist (oldKey : List Nat) (rows : List PeerRow) :
    ((migrationEntries oldKey rows).map Prod.fst).Sublist (rows.map (fun r => r.name)) := by
  induction rows with
  | nil => simp [migrationEntries]
  | cons r rest ih =>
    rw [migrationEntries, List.filterMap_cons]
    cases he : rowEntry oldKey r with
    | none => exact (migrationEntries oldKey rest).map Prod.fst |>.sublist_cons_of_sublist _ ih
    | some e =>
      rw [List.map_cons, List.map_cons, rowEntry_name oldKey r e he]
      exact List.Sublist.cons₂ _ ih

theorem rowEntry_none_iff (oldKey : List Nat) (r : PeerRow) :
    rowEntry oldKey r = none ↔
      (r.passwordEncrypted = [] ∨
        ∃ e, decryptWithKey r.passwordEncrypted oldKey = .error e) := by
  unfold rowEntry
  by_cases hb : r.passwordEncrypted = []
  · simp [hb]
  · rw [if_neg hb]
    cases hd : decryptWithKey r.passwordEncrypted oldKey with
    | ok pt => simp [hb]
    | error e2 => simp [hb]

theorem rowEntry_some_iff (oldKey : List Nat) (r : PeerRow) (pt : List Nat) :
    rowEntry oldKey r = some (r.name, pt) ↔
      decryptWithKey r.passwordEncrypted oldKey = .ok pt := by
  unfold rowEntry
  by_cases hb : r.passwordEncrypted = []
  · rw [if_pos hb]
    constructor
    · intro h; cases h
    · intro h
      obtain ⟨e, he⟩ := decrypt_short r.passwordEncrypted oldKey (by simp [hb, gcmNonceSize])
      rw [he] at h; cases h
  · rw [if_neg hb]
    cases hd : decryptWithKey r.passwordEncrypted oldKey with
    | ok qt => simp
    | error e2 => simp

/-- Shared characterization of a completed migration: it succeeds, preserves
the row count, leaves rows that do not decrypt under the legacy key
untouched, and rewrites each row that does decrypt with a fresh seal under
the new key. -/
theorem migrate_characterization (s : DoltStore) (rows : List PeerRow)
    (newKey : List Nat) (nonces : Nat → List Nat)
    (hconn : s.dbConn = true) (hrows : s.federationPeers = some rows)
    (hnodup : (rows.map (fun r => r.name)).Nodup)
    (hkey : aesKeySizeOk newKey = true) :
    ∃ rows2, s.migrateCredentialKeys newKey nonces =
        .ok { s with federationPeers := some rows2 } ∧
      rows2 = pureApply newKey nonces rows (migrationEntries s.legacyEncryptionKey rows) 0 ∧
      rows2.length = rows.length ∧
      (∀ (idx : Nat) (r : PeerRow), rows[idx]? = some r →
        (rowEntry s.legacyEncryptionKey r = none → rows2[idx]? = some r) ∧
        (∀ pt, rowEntry s.legacyEncryptionKey r = some (r.name, pt) →
          ∃ j, rows2[idx]? =
            some { r with passwordEncrypted := sealBlob pt newKey (nonces j) })) := by
  refine ⟨pureApply newKey nonces rows (migrationEntries s.legacyEncryptionKey rows) 0,
    ?_, rfl, length_pureApply _ _ _ _ _, ?_⟩
  · unfold DoltStore.migrateCredentialKeys
    simp only [hconn, hrows, if_true]
    rw [applyMigration_eq_pureApply newKey nonces hkey]
  · intro idx r hr
    constructor
    · intro hnone
      apply pureApply_not_mem newKey nonces _ rows 0 idx r hr
      intro hmem
      obtain ⟨e, he, hename⟩ := List.mem_map.mp hmem
      obtain ⟨r2, hr2, hre2⟩ := List.mem_filterMap.mp he
      have hname2 : r2.name = r.name := by rw [← rowEntry_name _ _ _ hre2, hename]
      have hrmem : r ∈ rows := by
        have := List.getElem?_eq_some.mp hr
        obtain ⟨hlt, hget⟩ := this
        exact hget ▸ List.getElem_mem hlt
      have : r2 = r := List.inj_on_of_nodup_map hnodup hr2 hrmem hname2
      rw [this, hnone] at hre2
      cases hre2
    · intro pt hsome
      apply pureApply_mem_unique newKey nonces _ rows 0 idx r pt hr
      · exact List.Nodup.sublist (migrationEntries_names_sublist _ rows) hnodup
      · apply List.mem_filterMap.mpr
        have hrmem : r ∈ rows := by
          obtain ⟨hlt, hget⟩ := List.getElem?_eq_some.mp hr
          exact hget ▸ List.getElem_mem hlt
        exact ⟨r, hrmem, hsome⟩

/-- Claim C7: `migrateCredentialKeys(newKey)` considers exactly the rows
with a non-empty encrypted password — each row whose blob decrypts under
the legacy dbPath-derived key is re-encrypted with `newKey` and written
back (decrypting to the same plaintext under the new key), each row that
stores no blob or fails legacy decryption is left byte-for-byte untouched —
and a missing peer table makes migration a successful no-op rather than an
error. -/
theorem migrateCredentialKeys_spec (s : DoltStore) (rows : List PeerRow)
    (newKey : List Nat) (nonces : Nat → List Nat)
    (hconn : s.dbConn = true)
    (hnodup : (rows.map (fun r => r.name)).Nodup)
    (hkey : newKey.length = 32)
    (hnonces : ∀ j, (nonces j).length = gcmNonceSize) :
    (s.federationPeers = none → s.migrateCredentialKeys newKey nonces = .ok s) ∧
    (s.federationPeers = some rows →
      ∃ rows2, s.migrateCredentialKeys newKey nonces =
          .ok { s with federationPeers := some rows2 } ∧
        rows2.length = rows.length ∧
        ∀ (idx : Nat) (r : PeerRow), rows[idx]? = some r →
          ((r.passwordEncrypted = [] ∨
            (∃ e, decryptWithKey r.passwordEncrypted s.legacyEncryptionKey = .error e)) →
            rows2[idx]? = some r) ∧
          (∀ pt, decryptWithKey r.passwordEncrypted s.legacyEncryptionKey = .ok pt →
            ∃ blob, rows2[idx]? = some { r with passwordEncrypted := blob } ∧
              decryptWithKey blob newKey = .ok pt)) := by
  have hks : aesKeySizeOk newKey = true := by simp [aesKeySizeOk, hkey]
  constructor
  · intro hnone
    unfold DoltStore.migrateCredentialKeys
    simp [hconn, hnone]
  · intro hrows
    obtain ⟨rows2, hmig, _, hlen, hchar⟩ :=
      migrate_characterization s rows newKey nonces hconn hrows hnodup hks
    refine ⟨rows2, hmig, hlen, ?_⟩
    intro idx r hr
    obtain ⟨huntouched, hupd⟩ := hchar idx r hr
    constructor
    · intro hcase
      exact huntouched ((rowEntry_none_iff _ r).mpr hcase)
    · intro pt hdec
      obtain ⟨j, hj⟩ := hupd pt ((rowEntry_some_iff _ r pt).mpr hdec)
      exact ⟨sealBlob pt newKey (nonces j), hj,
        decrypt_encrypt pt newKey (nonces j) hks (hnonces j)⟩

/-- Witness for C7 on a concrete store holding a legacy-encrypted row, an
undecryptable row and a password-less row. -/
theorem migrateCredentialKeys_spec_witness :
    (DoltStore.federationPeers ⟨"/data", none, true, some
        [⟨"alpha", "https://a", "u",
            sealBlob [7] (sha256Model (strBytes "/databeads-federation-key-v1"))
              (List.replicate 12 3), "x"⟩,
         ⟨"beta", "https://b", "v", [9, 9, 9], "y"⟩,
         ⟨"gamma", "https://c", "w", [], "z"⟩], []⟩ = none →
      DoltStore.migrateCredentialKeys ⟨"/data", none, true, some
        [⟨"alpha", "https://a", "u",
            sealBlob [7] (sha256Model (strBytes "/databeads-federation-key-v1"))
              (List.replicate 12 3), "x"⟩,
         ⟨"beta", "https://b", "v", [9, 9, 9], "y"⟩,
         ⟨"gamma", "https://c", "w", [], "z"⟩], []⟩ (List.replicate 32 1)
        (fun _ => List.replicate 12 4) =
        .ok ⟨"/data", none, true, some
        [⟨"alpha", "https://a", "u",
            sealBlob [7] (sha256Model (strBytes "/databeads-federation-key-v1"))
              (List.replicate 12 3), "x"⟩,
         ⟨"beta", "https://b", "v", [9, 9, 9], "y"⟩,
         ⟨"gamma", "https://c", "w", [], "z"⟩], []⟩) ∧
    (DoltStore.federationPeers ⟨"/data", none, true, some
        [⟨"alpha", "https://a", "u",
            sealBlob [7] (sha256Model (strBytes "/databeads-federation-key-v1"))
              (List.replicate 12 3), "x"⟩,
         ⟨"beta", "https://b", "v", [9, 9, 9], "y"⟩,
         ⟨"gamma", "https://c", "w", [], "z"⟩], []⟩ = some
        [⟨"alpha", "https://a", "u",
            sealBlob [7] (sha256Model (strBytes "/databeads-federation-key-v1"))
              (List.replicate 12 3), "x"⟩,
         ⟨"beta", "https://b", "v", [9, 9, 9], "y"⟩,
         ⟨"gamma", "https://c", "w", [], "z"⟩] →
      ∃ rows2, DoltStore.migrateCredentialKeys ⟨"/data", none, true, some
          [⟨"alpha", "https://a", "u",
              sealBlob [7] (sha256Model (strBytes "/databeads-federation-key-v1"))
                (List.replicate 12 3), "x"⟩,
           ⟨"beta", "https://b", "v", [9, 9, 9], "y"⟩,
           ⟨"gamma", "https://c", "w", [], "z"⟩], []⟩ (List.replicate 32 1)
          (fun _ => List.replicate 12 4) =
          .ok { (⟨"/data", none, true, some
            [⟨"alpha", "https://a", "u",
                sealBlob [7] (sha256Model (strBytes "/databeads-federation-key-v1"))
                  (List.replicate 12 3), "x"⟩,
             ⟨"beta", "https://b", "v", [9, 9, 9], "y"⟩,
             ⟨"gamma", "https://c", "w", [], "z"⟩], []⟩ : DoltStore) with
            federationPeers := some rows2 } ∧
        rows2.length = ([⟨"alpha", "https://a", "u",
            sealBlob [7] (sha256Model (strBytes "/databeads-federation-key-v1"))
              (List.replicate 12 3), "x"⟩,
         ⟨"beta", "https://b", "v", [9, 9, 9], "y"⟩,
         ⟨"gamma", "https://c", "w", [], "z"⟩] : List PeerRow).length ∧
        ∀ (idx : Nat) (r : PeerRow),
          ([⟨"alpha", "https://a", "u",
              sealBlob [7] (sha256Model (strBytes "/databeads-federation-key-v1"))
                (List.replicate 12 3), "x"⟩,
           ⟨"beta", "https://b", "v", [9, 9, 9], "y"⟩,
           ⟨"gamma", "https://c", "w", [], "z"⟩] : List PeerRow)[idx]? = some r →
          ((r.passwordEncrypted = [] ∨
            (∃ e, decryptWithKey r.passwordEncrypted
              (DoltStore.legacyEncryptionKey ⟨"/data", none, true, some
                [⟨"alpha", "https://a", "u",
                    sealBlob [7] (sha256Model (strBytes "/databeads-federation-key-v1"))
                      (List.replicate 12 3), "x"⟩,
                 ⟨"beta", "https://b", "v", [9, 9, 9], "y"⟩,
                 ⟨"gamma", "https://c", "w", [], "z"⟩], []⟩) = .error e)) →
            rows2[idx]? = some r) ∧
          (∀ pt, decryptWithKey r.passwordEncrypted
              (DoltStore.legacyEncryptionKey ⟨"/data", none, true, some
                [⟨"alpha", "https://a", "u",
                    sealBlob [7] (sha256Model (strBytes "/databeads-federation-key-v1"))
                      (List.replicate 12 3), "x"⟩,
                 ⟨"beta", "https://b", "v", [9, 9, 9], "y"⟩,
                 ⟨"gamma", "https://c", "w", [], "z"⟩], []⟩) = .ok pt →
            ∃ blob, rows2[idx]? = some { r with passwordEncrypted := blob } ∧
              decryptWithKey blob (List.replicate 32 1) = .ok pt)) :=
  migrateCredentialKeys_spec ⟨"/data", none, true, some
      [⟨"alpha", "https://a", "u",
          sealBlob [7] (sha256Model (strBytes "/databeads-federation-key-v1"))
            (List.replicate 12 3), "x"⟩,
       ⟨"beta", "https://b", "v", [9, 9, 9], "y"⟩,
       ⟨"gamma", "https://c", "w", [], "z"⟩], []⟩
    [⟨"alpha", "https://a", "u",
        sealBlob [7] (sha256Model (strBytes "/databeads-federation-key-v1"))
          (List.replicate 12 3), "x"⟩,
     ⟨"beta", "https://b", "v", [9, 9, 9], "y"⟩,
     ⟨"gamma", "https://c", "w", [], "z"⟩]
    (List.replicate 32 1) (fun _ => List.replicate 12 4)
    rfl (by decide) (by decide) (fun _ => rfl)

theorem sealBlob_ne_nil (pt key nonce : List Nat) (hn : nonce.length = gcmNonceSize) :
    sealBlob pt key nonce ≠ [] := by
  intro h
  have := congrArg List.length h
  simp [sealBlob, gcmSealBody, hn, gcmNonceSize] at this

theorem migrate_no_entries (t : DoltStore) (rows : List PeerRow)
    (newKey : List Nat) (nonces : Nat → List Nat)
    (hconn : t.dbConn = true) (hrows : t.federationPeers = some rows)
    (hents : migrationEntries t.legacyEncryptionKey rows = []) :
    t.migrateCredentialKeys newKey nonces = .ok t := by
  unfold DoltStore.migrateCredentialKeys
  rw [if_pos hconn, hrows]
  show (match applyMigration newKey nonces rows
      (migrationEntries t.legacyEncryptionKey rows) 0 with
    | Except.error e => Except.error (StoreError.encryptFailed e)
    | Except.ok rows2 => Except.ok { t with federationPeers := some rows2 }) = .ok t
  rw [hents]
  show Except.ok { t with federationPeers := some rows } = .ok t
  rw [← hrows]

/-- Claim C8: starting from a store whose every stored password decrypts
under the legacy key, one migration to `newKey` makes every stored password
decrypt under `newKey`, and a second migration with the same `newKey` is an
exact no-op — it finds no row to migrate because none still decrypts under
the legacy key — leaving the store state unchanged. -/
theorem migrate_twice_idempotent (s : DoltStore) (rows : List PeerRow)
    (newKey : List Nat) (nonces1 nonces2 : Nat → List Nat)
    (hconn : s.dbConn = true) (hrows : s.federationPeers = some rows)
    (hnodup : (rows.map (fun r => r.name)).Nodup)
    (hkey : newKey.length = 32)
    (hnew : newKey ≠ s.legacyEncryptionKey)
    (hnonce1 : ∀ j, (nonces1 j).length = gcmNonceSize)
    (horig : ∀ r ∈ rows, r.passwordEncrypted ≠ [] →
      ∃ pt, decryptWithKey r.passwordEncrypted s.legacyEncryptionKey = .ok pt) :
    ∃ rows1, s.migrateCredentialKeys newKey nonces1 =
        .ok { s with federationPeers := some rows1 } ∧
      (∀ r ∈ rows1, r.passwordEncrypted ≠ [] →
        ∃ pt, decryptWithKey r.passwordEncrypted newKey = .ok pt) ∧
      migrationEntries
        ({ s with federationPeers := some rows1 } : DoltStore).legacyEncryptionKey rows1 = [] ∧
      ({ s with federationPeers := some rows1 } : DoltStore).migrateCredentialKeys
        newKey nonces2 = .ok { s with federationPeers := some rows1 } := by
  have hks : aesKeySizeOk newKey = true := by simp [aesKeySizeOk, hkey]
  have hlegLen : s.legacyEncryptionKey.length = 32 := sha256Model_length _
  obtain ⟨rows2, hmig, _, hlen, hchar⟩ :=
    migrate_characterization s rows newKey nonces1 hconn hrows hnodup hks
  have hshape : ∀ r2 ∈ rows2, r2.passwordEncrypted = [] ∨
      ∃ pt j, r2.passwordEncrypted = sealBlob pt newKey (nonces1 j) := by
    intro r2 hr2
    obtain ⟨idx, hidx⟩ := List.getElem?_of_mem hr2
    have hlt : idx < rows.length := by
      obtain ⟨hlt2, _⟩ := List.getElem?_eq_some.mp hidx
      omega
    have hr0 : rows[idx]? = some rows[idx] := List.getElem?_eq_getElem hlt
    have hmem0 : rows[idx] ∈ rows := List.getElem_mem hlt
    obtain ⟨hunt, hupd⟩ := hchar idx rows[idx] hr0
    by_cases hent : rowEntry s.legacyEncryptionKey rows[idx] = none
    · have heq := hunt hent
      rw [hidx] at heq
      have hr2eq : r2 = rows[idx] := by cases heq; rfl
      rcases (rowEntry_none_iff _ _).mp hent with hpw | ⟨e, herr⟩
      · exact Or.inl (hr2eq ▸ hpw)
      · by_cases hpw : rows[idx].passwordEncrypted = []
        · exact Or.inl (hr2eq ▸ hpw)
        · obtain ⟨pt, hok⟩ := horig rows[idx] hmem0 hpw
          rw [hok] at herr
          cases herr
    · cases heq : rowEntry s.legacyEncryptionKey rows[idx] with
      | none => exact absurd heq hent
      | some e =>
        have hen := rowEntry_name _ _ _ heq
        have heq2 : rowEntry s.legacyEncryptionKey rows[idx] = some (rows[idx].name, e.2) := by
          rw [heq]
          obtain ⟨a, b⟩ := e
          simp only [Prod.fst] at hen
          rw [hen]
        obtain ⟨j, hj⟩ := hupd e.2 heq2
        rw [hidx] at hj
        have hr2eq : r2 = { rows[idx] with
            passwordEncrypted := sealBlob e.2 newKey (nonces1 j) } := by cases hj; rfl
        exact Or.inr ⟨e.2, j, by rw [hr2eq]⟩
  have hents : migrationEntries s.legacyEncryptionKey rows2 = [] := by
    apply List.filterMap_eq_nil_iff.mpr
    intro r2 hr2
    rcases hshape r2 hr2 with hpw | ⟨pt, j, hpw⟩
    · exact (rowEntry_none_iff _ _).mpr (Or.inl hpw)
    · apply (rowEntry_none_iff _ _).mpr
      refine Or.inr ⟨.authenticationFailed, ?_⟩
      rw [hpw]
      exact decrypt_encrypt_wrong_key pt newKey s.legacyEncryptionKey (nonces1 j)
        hnew (by omega) (by simp [aesKeySizeOk, hlegLen]) (hnonce1 j)
  refine ⟨rows2, hmig, ?_, ?_, ?_⟩
  · intro r2 hr2 hne
    rcases hshape r2 hr2 with hpw | ⟨pt, j, hpw⟩
    · exact absurd hpw hne
    · exact ⟨pt, by rw [hpw]; exact decrypt_encrypt pt newKey (nonces1 j) hks (hnonce1 j)⟩
  · exact hents
  · exact migrate_no_entries _ rows2 newKey nonces2 hconn rfl hents

/-- Witness for C8 on a concrete one-row store encrypted under the legacy
key. -/
theorem migrate_twice_idempotent_witness :
    ∃ rows1, DoltStore.migrateCredentialKeys ⟨"/data", none, true, some
        [⟨"alpha", "https://a", "u",
            sealBlob [7] (sha256Model (strBytes "/databeads-federation-key-v1"))
              (List.replicate 12 3), "x"⟩], []⟩ (List.replicate 32 1)
        (fun _ => List.replicate 12 4) =
        .ok { (⟨"/data", none, true, some
          [⟨"alpha", "https://a", "u",
              sealBlob [7] (sha256Model (strBytes "/databeads-federation-key-v1"))
                (List.replicate 12 3), "x"⟩], []⟩ : DoltStore) with
          federationPeers := some rows1 } ∧
      (∀ r ∈ rows1, r.passwordEncrypted ≠ [] →
        ∃ pt, decryptWithKey r.passwordEncrypted (List.replicate 32 1) = .ok pt) ∧
      migrationEntries
        ({ (⟨"/data", none, true, some
          [⟨"alpha", "https://a", "u",
              sealBlob [7] (sha256Model (strBytes "/databeads-federation-key-v1"))
                (List.replicate 12 3), "x"⟩], []⟩ : DoltStore) with
          federationPeers := some rows1 } : DoltStore).legacyEncryptionKey rows1 = [] ∧
      ({ (⟨"/data", none, true, some
          [⟨"alpha", "https://a", "u",
              sealBlob [7] (sha256Model (strBytes "/databeads-federation-key-v1"))
                (List.replicate 12 3), "x"⟩], []⟩ : DoltStore) with
          federationPeers := some rows1 } : DoltStore).migrateCredentialKeys
        (List.replicate 32 1) (fun _ => List.replicate 12 5) =
        .ok { (⟨"/data", none, true, some
          [⟨"alpha", "https://a", "u",
              sealBlob [7] (sha256Model (strBytes "/databeads-federation-key-v1"))
                (List.replicate 12 3), "x"⟩], []⟩ : DoltStore) with
          federationPeers := some rows1 } :=
  migrate_twice_idempotent ⟨"/data", none, true, some
      [⟨"alpha", "https://a", "u",
          sealBlob [7] (sha256Model (strBytes "/databeads-federation-key-v1"))
            (List.replicate 12 3), "x"⟩], []⟩
    [⟨"alpha", "https://a", "u",
        sealBlob [7] (sha256Model (strBytes "/databeads-federation-key-v1"))
          (List.replicate 12 3), "x"⟩]
    (List.replicate 32 1) (fun _ => List.replicate 12 4) (fun _ => List.replicate 12 5)
    rfl rfl (by decide) (by decide) (by decide) (fun _ => rfl)
    (fun r hr hne => by
      rcases List.mem_singleton.mp hr with rfl
      exact ⟨[7], by decide⟩)

/-- Witness for C6: `AddFederationPeer` rejects the concrete name
`"1bot"`. -/
theorem validatePeerName_spec_witness :
    DoltStore.AddFederationPeer
      ⟨"/data", none, true, some [], []⟩
      ⟨"1bot", "https://x/y", "u", [], ""⟩ [] =
      .error (.invalidPeerName .badPattern) :=
  validatePeerName_spec.2.2.2.2.2 ⟨"/data", none, true, some [], []⟩
    ⟨"1bot", "https://x/y", "u", [], ""⟩ [] .badPattern (by decide)

end Beads
